import Mathlib

/-!
Verification of the `ErrorEnum` derive generator (`src/lib.rs` of
`error-conversion-macro`).  The generator inspects a parsed type
declaration (`syn::DeriveInput`) and emits `From` implementations.  We
embed the syntactic structures the generator consumes, the generator
itself, and a denotation of the Rust code it emits.
-/

namespace ErrorEnum

/-- Field shape of an enum variant, mirroring `syn::Fields`.
An unnamed (tuple-style) field list is represented by the list of the
textual token renderings of its field types, e.g. `["anyhow :: Error"]`
for `(anyhow::Error)`; `named` stands for `Fields::Named`, `unit` for
`Fields::Unit`. -/
inductive Fields where
  | unnamed (types : List String)
  | named
  | unit
deriving DecidableEq, Repr

/-- One enum variant, mirroring `syn::Variant`: its identifier, its field
shape, and the textual renderings (`attr.meta.into_token_stream().to_string()`)
of its attached attributes. -/
structure Variant where
  ident : String
  fields : Fields
  attrs : List String
deriving DecidableEq, Repr

/-- The body of the declaration, mirroring `syn::Data`. -/
inductive Data where
  | enumData (variants : List Variant)
  | structData
  | unionData
deriving DecidableEq, Repr

/-- The parsed declaration handed to the derive entry point, mirroring
`syn::DeriveInput`: the type identifier and its body. -/
structure DeriveInput where
  ident : String
  data : Data
deriving DecidableEq, Repr

/-- Rendering of an unnamed-field list as one token string:
`field.unnamed.into_token_stream().to_string()` on a
`Punctuated<Field, Comma>` prints the field types separated by ` , `
(proc_macro2 token printing separates tokens by spaces). -/
def render_unnamed : List String → String
  | [] => ""
  | [t] => t
  | t :: rest => t ++ " , " ++ render_unnamed rest

/-- `get_unnamed_field` (src/lib.rs:86-91): the unnamed field list of a
variant, when its fields are `Fields::Unnamed`. -/
def get_unnamed_field (variant : Variant) : Option (List String) :=
  match variant.fields with
  | Fields.unnamed field => some field
  | _ => none

/-- The per-variant test inside `get_variant_with_type`
(src/lib.rs:94-106): if the variant has an unnamed field list whose
token rendering equals `with_type`, return the variant identifier. -/
def variant_matches_type (with_type : String) (variant : Variant) : Option String :=
  match get_unnamed_field variant with
  | some field =>
      if render_unnamed field = with_type then some variant.ident else none
  | none => none

/-- `get_variant_with_type` (src/lib.rs:93-107): first variant, in
declaration order, whose rendered unnamed-field list equals `with_type`. -/
def get_variant_with_type (variants : List Variant) (with_type : String) : Option String :=
  variants.findSome? (variant_matches_type with_type)

/-- One emitted `impl From<..> for ..` block, as produced by the three
`quote!` templates in src/lib.rs:
* `unwrap` is the default template (lines 126-135): it matches on the
  inner value and flattens the anyhow variant;
* `direct` is the `without_anyhow` template (lines 138-144): it wraps
  unconditionally;
* `universal` is the `impl From<anyhow::Error>` block (lines 78-82). -/
inductive ConvImpl where
  | unwrap (enum_name inner_type variant_name anyhow_variant : String)
  | direct (enum_name inner_type variant_name : String)
  | universal (enum_name anyhow_variant : String)
deriving DecidableEq, Repr

/-- `generate_impl` (src/lib.rs:109-146): for a variant with an unnamed
field list, emit the `direct` template when some attribute renders
exactly as `without_anyhow`, else the `unwrap` template; variants with
named fields or no fields yield `none`. -/
def generate_impl (enum_name : String) (variant : Variant) (anyhow_variant : String) :
    Option ConvImpl :=
  match get_unnamed_field variant with
  | none => none
  | some field =>
    match variant.attrs.find? (fun attr => attr == "without_anyhow") with
    | none =>
        some (ConvImpl.unwrap enum_name (render_unnamed field) variant.ident anyhow_variant)
    | some _ => some (ConvImpl.direct enum_name (render_unnamed field) variant.ident)

/-- Result of the derive entry point: either a `compile_error!` diagnostic
(`derive_error!`, src/lib.rs:10-16) or the list of emitted impls. -/
inductive GenResult where
  | error (message : String)
  | ok (impls : List ConvImpl)
deriving DecidableEq, Repr

/-- `generate_from_impls` (src/lib.rs:42-84): validate that the input is
an enum, find the variant whose unnamed field list renders as
`anyhow :: Error`, generate an impl for every variant whose identifier
differs from it, and append the universal `impl From<anyhow::Error>`. -/
def generate_from_impls (input : DeriveInput) : GenResult :=
  match input.data with
  | Data.enumData enum_data =>
    match get_variant_with_type enum_data "anyhow :: Error" with
    | none => GenResult.error "Could not find a variant with anyhow::Error type in this enum"
    | some anyhow_variant =>
      GenResult.ok
        ((enum_data.filterMap (fun variant =>
            if variant.ident = anyhow_variant then none
            else generate_impl input.ident variant anyhow_variant)) ++
          [ConvImpl.universal input.ident anyhow_variant])
  | _ => GenResult.error "ErrorEnum is only implemented for enums"

/-- The conversion impls carried by a generation result: a diagnostic
emits none (the error path returns only the `compile_error!` tokens). -/
def emittedImpls : GenResult → List ConvImpl
  | GenResult.error _ => []
  | GenResult.ok impls => impls

/-- Runtime values of the enums involved: a value is either an opaque
payload (e.g. an `anyhow::Error` or a non-enum value) or a variant of
some enum applied to a payload. -/
inductive Val where
  | base (n : Nat)
  | variant (ctor : String) (arg : Val)
deriving DecidableEq, Repr

/-- Denotation of the Rust code inside each emitted `fn from`.  `intoConv`
is the meaning of the `.into()` call in the universal impl.
* `unwrap`: `match value { Inner::Anyhow(e) => E::Anyhow(e), _ => E::V(value) }`
  (src/lib.rs:129-132);
* `direct`: `Self::V(value)` (src/lib.rs:141);
* `universal`: `E::Anyhow(value.into())` (src/lib.rs:80). -/
def convSem (intoConv : Val → Val) : ConvImpl → Val → Val
  | ConvImpl.unwrap _ _ variant_name anyhow_variant, Val.variant c e =>
      if c = anyhow_variant then Val.variant anyhow_variant e
      else Val.variant variant_name (Val.variant c e)
  | ConvImpl.unwrap _ _ variant_name _, Val.base n => Val.variant variant_name (Val.base n)
  | ConvImpl.direct _ _ variant_name, value => Val.variant variant_name value
  | ConvImpl.universal _ anyhow_variant, value => Val.variant anyhow_variant (intoConv value)

/-- Token-text rendering of one emitted impl block, following the three
`quote!` templates. -/
def renderImpl : ConvImpl → String
  | ConvImpl.unwrap en ty vn av =>
      "impl From < " ++ ty ++ " > for " ++ en ++ " \x7b fn from (value : " ++ ty ++
        ") -> Self \x7b match value \x7b " ++ ty ++ " :: " ++ av ++ " (e) => " ++ en ++
        " :: " ++ av ++ " (e) , _ => " ++ en ++ " :: " ++ vn ++ " (value) , \x7d \x7d \x7d"
  | ConvImpl.direct en ty vn =>
      "impl From < " ++ ty ++ " > for " ++ en ++ " \x7b fn from (value : " ++ ty ++
        ") -> Self \x7b Self :: " ++ vn ++ " (value) \x7d \x7d"
  | ConvImpl.universal en av =>
      "impl From < anyhow :: Error > for " ++ en ++
        " \x7b fn from (value : anyhow :: Error) -> Self \x7b " ++ en ++ " :: " ++ av ++
        " (value . into ()) \x7d \x7d"

/-- Token-text rendering of the whole returned token stream. -/
def renderResult : GenResult → String
  | GenResult.error message => "compile_error ! (" ++ message ++ ")"
  | GenResult.ok impls => String.join (impls.map renderImpl)

/-- Whether an emitted impl is the universal `impl From<anyhow::Error>`. -/
def isUniversal : ConvImpl → Bool
  | ConvImpl.universal _ _ => true
  | _ => false

/-- Whether an emitted impl is the per-variant impl generated for the
variant named `name`. -/
def isImplFor (name : String) : ConvImpl → Bool
  | ConvImpl.unwrap _ _ vn _ => vn == name
  | ConvImpl.direct _ _ vn => vn == name
  | ConvImpl.universal _ _ => false

/-- The source type of a per-variant impl (the `#variant_inner_type` the
conversion converts from); the universal impl converts from
`anyhow :: Error`. -/
def implSrc : ConvImpl → String
  | ConvImpl.unwrap _ ty _ _ => ty
  | ConvImpl.direct _ ty _ => ty
  | ConvImpl.universal _ _ => "anyhow :: Error"

/-- Catch-all discovery as the spec words it (for comparison with
`get_variant_with_type`): scan the variants in declaration order, for
each variant whose field-shape is exactly-one-unnamed-field compare the
rendering of that field's declared type against the fixed literal, and
return the first variant whose rendered type matches. -/
def catch_all_spec (variants : List Variant) : Option String :=
  variants.findSome? (fun v =>
    match v.fields with
    | Fields.unnamed [t] => if t = "anyhow :: Error" then some v.ident else none
    | _ => none)

/-- Two variants agreeing on identifier and field shape, and on attributes
unless the identifier is `a` (the selected catch-all). -/
def AgreeExceptAttrs (a : String) (v w : Variant) : Prop :=
  v.ident = w.ident ∧ v.fields = w.fields ∧ (v.ident ≠ a → v.attrs = w.attrs)

/-- The enum of the repository's test suite (tests/lib.rs:20-27). -/
def testInput : DeriveInput :=
  ⟨"Error", Data.enumData [
    ⟨"AnyhowError", Fields.unnamed ["anyhow :: Error"], []⟩,
    ⟨"ApplicationError", Fields.unnamed ["ApplicationError"], []⟩,
    ⟨"ErrorWithoutAnyhow", Fields.unnamed ["ErrorWithoutAnyhow"], ["without_anyhow"]⟩]⟩

/-- An enum whose first variant has two unnamed fields: `E { A(X, Y), B(anyhow::Error) }`. -/
def mfInput : DeriveInput :=
  ⟨"E", Data.enumData [
    ⟨"A", Fields.unnamed ["X", "Y"], []⟩,
    ⟨"B", Fields.unnamed ["anyhow :: Error"], []⟩]⟩

/-- An enum with a unit variant: `E { A, B(anyhow::Error) }` (spec scenario 3). -/
def unitVariant : Variant := ⟨"A", Fields.unit, []⟩

/-- The catch-all variant `B(anyhow::Error)` used by concrete instances. -/
def anyhowVariant : Variant := ⟨"B", Fields.unnamed ["anyhow :: Error"], []⟩

/-- A declaration that is a struct, not an enum. -/
def structInput : DeriveInput := ⟨"S", Data.structData⟩

lemma get_unnamed_field_eq_some {v : Variant} {fs : List String} :
    get_unnamed_field v = some fs ↔ v.fields = Fields.unnamed fs := by
  unfold get_unnamed_field
  cases h : v.fields <;> simp

lemma render_unnamed_cons_cons (a b : String) (rest : List String) :
    render_unnamed (a :: b :: rest) = a ++ " , " ++ render_unnamed (b :: rest) := rfl

lemma comma_mem_render (a b : String) (rest : List String) :
    ',' ∈ (render_unnamed (a :: b :: rest)).data := by
  rw [render_unnamed_cons_cons, String.data_append, String.data_append]
  refine List.mem_append_left _ (List.mem_append_right _ ?_)
  decide

lemma render_two_ne_anyhow (a b : String) (rest : List String) :
    render_unnamed (a :: b :: rest) ≠ "anyhow :: Error" := by
  intro h
  have hc := comma_mem_render a b rest
  rw [h] at hc
  exact absurd hc (by decide)

lemma render_eq_anyhow_iff (fs : List String) :
    render_unnamed fs = "anyhow :: Error" ↔ fs = ["anyhow :: Error"] := by
  match fs with
  | [] => simp [render_unnamed]
  | [t] => simp [render_unnamed]
  | a :: b :: rest =>
    simp only [render_two_ne_anyhow, iff_false, ne_eq]
    simp [render_two_ne_anyhow a b rest]

lemma variant_matches_anyhow (v : Variant) :
    variant_matches_type "anyhow :: Error" v =
      match v.fields with
      | Fields.unnamed [t] => if t = "anyhow :: Error" then some v.ident else none
      | _ => none := by
  obtain ⟨i, f, a⟩ := v
  cases f with
  | unnamed fs =>
    match fs with
    | [] => simp [variant_matches_type, get_unnamed_field, render_unnamed]
    | [t] => simp [variant_matches_type, get_unnamed_field, render_unnamed]
    | a :: b :: rest =>
      simp [variant_matches_type, get_unnamed_field, render_two_ne_anyhow a b rest]
  | named => rfl
  | unit => rfl

lemma findSome?_ext {α β : Type} (f g : α → Option β) (l : List α) (h : ∀ a, f a = g a) :
    l.findSome? f = l.findSome? g := by
  have : f = g := funext h
  rw [this]

/-- C5: catch-all discovery scans the variants in declaration order and
selects the first variant whose single unnamed field's declared type
renders as the literal `anyhow :: Error`; since an empty unnamed field
list renders as the empty string and a multi-field list renders with an
embedded comma, the code's comparison of the whole rendered field list
coincides with the spec's single-field comparison, first match wins. -/
theorem catch_all_first_match (variants : List Variant) :
    get_variant_with_type variants "anyhow :: Error" = catch_all_spec variants := by
  unfold get_variant_with_type catch_all_spec
  exact findSome?_ext _ _ variants variant_matches_anyhow

/-- C9: a variant with two or more unnamed fields is never selected as the
catch-all: its rendered field list contains a comma and thus never equals
`anyhow :: Error`, the per-variant comparison fails on it, and its
presence anywhere in the variant list leaves catch-all discovery
unchanged. -/
theorem multi_field_never_catch_all (v : Variant) (fs : List String)
    (hshape : v.fields = Fields.unnamed fs) (hlen : 2 ≤ fs.length) :
    render_unnamed fs ≠ "anyhow :: Error" ∧
    variant_matches_type "anyhow :: Error" v = none ∧
    ∀ (pre post : List Variant),
      get_variant_with_type (pre ++ v :: post) "anyhow :: Error" =
        get_variant_with_type (pre ++ post) "anyhow :: Error" := by
  match fs, hlen with
  | a :: b :: rest, _ =>
    have hne := render_two_ne_anyhow a b rest
    have hmatch : variant_matches_type "anyhow :: Error" v = none := by
      rw [variant_matches_anyhow, hshape]
    refine ⟨hne, hmatch, ?_⟩
    intro pre post
    induction pre with
    | nil =>
      simp only [List.nil_append, get_variant_with_type, List.findSome?_cons, hmatch]
    | cons p rest ih =>
      simp only [List.cons_append, get_variant_with_type, List.findSome?_cons] at ih ⊢
      cases variant_matches_type "anyhow :: Error" p <;> simp [ih]

/-- C9 witness: a concrete two-field variant `A(X, Y)` satisfies the
hypotheses and the conclusions of `multi_field_never_catch_all`. -/
theorem multi_field_never_catch_all_witness :
    render_unnamed ["X", "Y"] ≠ "anyhow :: Error" ∧
    variant_matches_type "anyhow :: Error" ⟨"A", Fields.unnamed ["X", "Y"], []⟩ = none ∧
    ∀ (pre post : List Variant),
      get_variant_with_type (pre ++ ⟨"A", Fields.unnamed ["X", "Y"], []⟩ :: post)
          "anyhow :: Error" =
        get_variant_with_type (pre ++ post) "anyhow :: Error" :=
  multi_field_never_catch_all ⟨"A", Fields.unnamed ["X", "Y"], []⟩ ["X", "Y"] rfl (by decide)

/-- C8: the generator is deterministic: two invocations on equal inputs
return equal results, and in particular byte-identical rendered token
text; the embedding is a pure function of the parsed declaration. -/
theorem generator_deterministic (input₁ input₂ : DeriveInput) (h : input₁ = input₂) :
    generate_from_impls input₁ = generate_from_impls input₂ ∧
    renderResult (generate_from_impls input₁) = renderResult (generate_from_impls input₂) := by
  subst h
  exact ⟨rfl, rfl⟩

/-- C8 witness: the two conclusions at the test-suite enum. -/
theorem generator_deterministic_witness :
    generate_from_impls testInput = generate_from_impls testInput ∧
    renderResult (generate_from_impls testInput) = renderResult (generate_from_impls testInput) :=
  generator_deterministic testInput testInput rfl

lemma generate_impl_unnamed (en A : String) (v : Variant) (fs : List String)
    (h : v.fields = Fields.unnamed fs) :
    generate_impl en v A =
      match v.attrs.find? (fun attr => attr == "without_anyhow") with
      | none => some (ConvImpl.unwrap en (render_unnamed fs) v.ident A)
      | some _ => some (ConvImpl.direct en (render_unnamed fs) v.ident) := by
  have hg : get_unnamed_field v = some fs := get_unnamed_field_eq_some.mpr h
  unfold generate_impl
  rw [hg]

lemma generate_impl_not_unnamed (en A : String) (v : Variant)
    (h : get_unnamed_field v = none) : generate_impl en v A = none := by
  unfold generate_impl
  rw [h]

lemma generate_impl_some_cases (en A : String) (v : Variant) (c : ConvImpl)
    (h : generate_impl en v A = some c) :
    ∃ fs, v.fields = Fields.unnamed fs ∧
      (c = ConvImpl.unwrap en (render_unnamed fs) v.ident A ∨
       c = ConvImpl.direct en (render_unnamed fs) v.ident) := by
  cases hg : get_unnamed_field v with
  | none => rw [generate_impl_not_unnamed en A v hg] at h; exact absurd h (by simp)
  | some fs =>
    refine ⟨fs, get_unnamed_field_eq_some.mp hg, ?_⟩
    rw [generate_impl_unnamed en A v fs (get_unnamed_field_eq_some.mp hg)] at h
    cases hfind : v.attrs.find? (fun attr => attr == "without_anyhow") with
    | none => rw [hfind] at h; exact Or.inl (Option.some.inj h).symm
    | some _ => rw [hfind] at h; exact Or.inr (Option.some.inj h).symm

lemma isImplFor_of_generate {en A : String} (n : String) {v : Variant} {c : ConvImpl}
    (h : generate_impl en v A = some c) : isImplFor n c = (v.ident == n) := by
  obtain ⟨fs, _, hc | hc⟩ := generate_impl_some_cases en A v c h <;> subst hc <;> rfl

lemma isUniversal_of_generate {en A : String} {v : Variant} {c : ConvImpl}
    (h : generate_impl en v A = some c) : isUniversal c = false := by
  obtain ⟨fs, _, hc | hc⟩ := generate_impl_some_cases en A v c h <;> subst hc <;> rfl

lemma implSrc_of_generate {en A : String} {v : Variant} {c : ConvImpl} {fs : List String}
    (hf : v.fields = Fields.unnamed fs)
    (h : generate_impl en v A = some c) : implSrc c = render_unnamed fs := by
  obtain ⟨fs₂, hf₂, hc | hc⟩ := generate_impl_some_cases en A v c h <;>
    rw [hf] at hf₂ <;>
    cases hf₂ <;>
    subst hc <;>
    rfl

lemma loop_body_some {en A : String} {v : Variant} {c : ConvImpl}
    (h : (if v.ident = A then none else generate_impl en v A) = some c) :
    v.ident ≠ A ∧ generate_impl en v A = some c := by
  by_cases hv : v.ident = A
  · rw [if_pos hv] at h; exact absurd h (by simp)
  · rw [if_neg hv] at h; exact ⟨hv, h⟩

lemma generate_from_impls_enum (name : String) (vs : List Variant) (A : String)
    (hA : get_variant_with_type vs "anyhow :: Error" = some A) :
    generate_from_impls ⟨name, Data.enumData vs⟩ =
      GenResult.ok
        ((vs.filterMap (fun variant =>
            if variant.ident = A then none else generate_impl name variant A)) ++
          [ConvImpl.universal name A]) := by
  unfold generate_from_impls
  simp only [hA]

lemma generate_from_impls_no_catch_all (name : String) (vs : List Variant)
    (hA : get_variant_with_type vs "anyhow :: Error" = none) :
    generate_from_impls ⟨name, Data.enumData vs⟩ =
      GenResult.error "Could not find a variant with anyhow::Error type in this enum" := by
  unfold generate_from_impls
  simp only [hA]

/-- C3 counterexample: on `E { A(X, Y), B(anyhow::Error) }` the variant
`A` has two unnamed fields, yet a conversion implementation is emitted
for it (with the comma-joined field list as source type), contradicting
the claim that multi-field variants produce no conversion. -/
theorem multi_field_variant_gets_impl :
    (Variant.fields ⟨"A", Fields.unnamed ["X", "Y"], []⟩ = Fields.unnamed ["X", "Y"]) ∧
    generate_from_impls mfInput =
      GenResult.ok [ConvImpl.unwrap "E" "X , Y" "A" "B", ConvImpl.universal "E" "B"] ∧
    (emittedImpls (generate_from_impls mfInput)).countP (isImplFor "A") = 1 :=
  ⟨rfl, rfl, rfl⟩

/-- C3 amended: for every variant whose field-shape carries no unnamed
field list at all (named fields or no fields), no conversion is emitted
for it and no diagnostic is raised: generation of the declaration with
the variant present is identical to generation with it removed. Variants
with an unnamed field list of length other than one are NOT skipped: a
conversion is emitted whose source type is the rendered comma-joined
field list. -/
theorem named_or_unit_variant_skipped (name : String) (pre post : List Variant) (v : Variant)
    (hshape : v.fields = Fields.named ∨ v.fields = Fields.unit) :
    generate_from_impls ⟨name, Data.enumData (pre ++ v :: post)⟩ =
      generate_from_impls ⟨name, Data.enumData (pre ++ post)⟩ := by
  have hg : get_unnamed_field v = none := by
    unfold get_unnamed_field
    cases hshape with
    | inl h => rw [h]
    | inr h => rw [h]
  have hmatch : variant_matches_type "anyhow :: Error" v = none := by
    unfold variant_matches_type
    rw [hg]
  have hfind : get_variant_with_type (pre ++ v :: post) "anyhow :: Error" =
      get_variant_with_type (pre ++ post) "anyhow :: Error" := by
    induction pre with
    | nil => simp only [List.nil_append, get_variant_with_type, List.findSome?_cons, hmatch]
    | cons p rest ih =>
      simp only [List.cons_append, get_variant_with_type, List.findSome?_cons] at ih ⊢
      cases variant_matches_type "anyhow :: Error" p <;> simp [ih]
  cases hA : get_variant_with_type (pre ++ post) "anyhow :: Error" with
  | none =>
    rw [generate_from_impls_no_catch_all name _ (hfind.trans hA),
      generate_from_impls_no_catch_all name _ hA]
  | some A =>
    rw [generate_from_impls_enum name _ A (hfind.trans hA),
      generate_from_impls_enum name _ A hA]
    have hbody : (if v.ident = A then none else generate_impl name v A) = none := by
      by_cases hv : v.ident = A
      · rw [if_pos hv]
      · rw [if_neg hv, generate_impl_not_unnamed name A v hg]
    simp only [List.filterMap_append, List.filterMap_cons, hbody]

/-- C3 amended witness: on `E { A, B(anyhow::Error) }` (unit variant `A`)
generation is identical to generation on `E { B(anyhow::Error) }`. -/
theorem named_or_unit_variant_skipped_witness :
    generate_from_impls ⟨"E", Data.enumData ([] ++ unitVariant :: [anyhowVariant])⟩ =
      generate_from_impls ⟨"E", Data.enumData ([] ++ [anyhowVariant])⟩ :=
  named_or_unit_variant_skipped "E" [] [anyhowVariant] unitVariant (Or.inr rfl)

/-- C4: a declaration that is not an enum, or an enum in which no variant
has a single unnamed field rendering as `anyhow :: Error`, yields a
diagnostic and zero emitted conversion implementations. -/
theorem fatal_preconditions (input : DeriveInput)
    (h : (∀ vs, input.data ≠ Data.enumData vs) ∨
         (∃ vs, input.data = Data.enumData vs ∧
            ∀ v ∈ vs, ∀ t, v.fields = Fields.unnamed [t] → t ≠ "anyhow :: Error")) :
    (∃ message, generate_from_impls input = GenResult.error message) ∧
    emittedImpls (generate_from_impls input) = [] := by
  obtain ⟨iname, idata⟩ := input
  cases h with
  | inl h =>
    cases hd : idata with
    | enumData vs => exact absurd hd (by simpa using h vs)
    | structData => subst hd; exact ⟨⟨_, rfl⟩, rfl⟩
    | unionData => subst hd; exact ⟨⟨_, rfl⟩, rfl⟩
  | inr h =>
    obtain ⟨vs, hdata, hnone⟩ := h
    simp only [DeriveInput.mk.injEq] at hdata
    subst hdata
    have hfind : get_variant_with_type vs "anyhow :: Error" = none := by
      unfold get_variant_with_type
      rw [List.findSome?_eq_none_iff]
      intro v hv
      rw [variant_matches_anyhow]
      cases hf : v.fields with
      | unnamed fs =>
        match fs with
        | [] => rfl
        | [t] =>
          have hne := hnone v hv t hf
          simp [hne]
        | a :: b :: rest => rfl
      | named => rfl
      | unit => rfl
    rw [generate_from_impls_no_catch_all iname vs hfind]
    exact ⟨⟨_, rfl⟩, rfl⟩

/-- C4 witness: the struct declaration `S` yields a diagnostic and no
emitted conversions. -/
theorem fatal_preconditions_witness :
    (∃ message, generate_from_impls structInput = GenResult.error message) ∧
    emittedImpls (generate_from_impls structInput) = [] :=
  fatal_preconditions structInput (Or.inl (fun _ h => Data.noConfusion h))

/-- C1: for a non-catch-all variant with exactly one unnamed field and no
`without_anyhow` marker, the emitted conversion from the variant's inner
type matches on the inner value: an inner value built from the variant
named like the outer catch-all has its payload re-wrapped directly into
the outer catch-all variant (one level of flattening), and any other
inner value is wrapped as-is into the processed outer variant. -/
theorem unwrap_conversion_semantics (input : DeriveInput) (vs : List Variant) (A : String)
    (v : Variant) (t : String)
    (hdata : input.data = Data.enumData vs)
    (hA : get_variant_with_type vs "anyhow :: Error" = some A)
    (hv : v ∈ vs) (hne : v.ident ≠ A)
    (hshape : v.fields = Fields.unnamed [t])
    (hattr : ∀ a ∈ v.attrs, a ≠ "without_anyhow") :
    ConvImpl.unwrap input.ident t v.ident A ∈ emittedImpls (generate_from_impls input) ∧
    (∀ (f : Val → Val) (e : Val),
      convSem f (ConvImpl.unwrap input.ident t v.ident A) (Val.variant A e) =
        Val.variant A e) ∧
    (∀ (f : Val → Val) (w : Val), (∀ e, w ≠ Val.variant A e) →
      convSem f (ConvImpl.unwrap input.ident t v.ident A) w = Val.variant v.ident w) := by
  obtain ⟨iname, idata⟩ := input
  simp only at hdata ⊢
  subst hdata
  have hfindnone : v.attrs.find? (fun attr => attr == "without_anyhow") = none := by
    rw [List.find?_eq_none]
    intro x hx
    simpa using hattr x hx
  have himpl : generate_impl iname v A = some (ConvImpl.unwrap iname t v.ident A) := by
    rw [generate_impl_unnamed iname A v [t] hshape, hfindnone]
    rfl
  refine ⟨?_, ?_, ?_⟩
  · rw [generate_from_impls_enum iname vs A hA]
    simp only [emittedImpls]
    refine List.mem_append_left _ ?_
    rw [List.mem_filterMap]
    exact ⟨v, hv, by rw [if_neg hne, himpl]⟩
  · intro f e
    simp [convSem]
  · intro f w hw
    cases w with
    | base n => rfl
    | variant c e =>
      by_cases hc : c = A
      · subst hc
        exact absurd rfl (hw e)
      · simp [convSem, hc]

/-- C1 witness: on the test-suite enum, the variant
`ApplicationError(ApplicationError)` (unmarked, not the catch-all) gets
the unwrap conversion, which flattens `ApplicationError::AnyhowError(e)`
to `Error::AnyhowError(e)` and wraps anything else. -/
theorem unwrap_conversion_semantics_witness :
    ConvImpl.unwrap "Error" "ApplicationError" "ApplicationError" "AnyhowError" ∈
      emittedImpls (generate_from_impls testInput) ∧
    (∀ (f : Val → Val) (e : Val),
      convSem f (ConvImpl.unwrap "Error" "ApplicationError" "ApplicationError" "AnyhowError")
        (Val.variant "AnyhowError" e) = Val.variant "AnyhowError" e) ∧
    (∀ (f : Val → Val) (w : Val), (∀ e, w ≠ Val.variant "AnyhowError" e) →
      convSem f (ConvImpl.unwrap "Error" "ApplicationError" "ApplicationError" "AnyhowError") w =
        Val.variant "ApplicationError" w) :=
  unwrap_conversion_semantics testInput
    [⟨"AnyhowError", Fields.unnamed ["anyhow :: Error"], []⟩,
     ⟨"ApplicationError", Fields.unnamed ["ApplicationError"], []⟩,
     ⟨"ErrorWithoutAnyhow", Fields.unnamed ["ErrorWithoutAnyhow"], ["without_anyhow"]⟩]
    "AnyhowError" ⟨"ApplicationError", Fields.unnamed ["ApplicationError"], []⟩
    "ApplicationError" rfl rfl (by decide) (by decide) rfl (by decide)

/-- C6: for a non-catch-all variant with exactly one unnamed field that
carries an attribute rendering exactly as `without_anyhow`, the emitted
conversion unconditionally wraps the inner value into that variant, with
no inspection of the inner value and no flattening. -/
theorem direct_wrap_conversion (input : DeriveInput) (vs : List Variant) (A : String)
    (v : Variant) (t : String)
    (hdata : input.data = Data.enumData vs)
    (hA : get_variant_with_type vs "anyhow :: Error" = some A)
    (hv : v ∈ vs) (hne : v.ident ≠ A)
    (hshape : v.fields = Fields.unnamed [t])
    (hattr : "without_anyhow" ∈ v.attrs) :
    ConvImpl.direct input.ident t v.ident ∈ emittedImpls (generate_from_impls input) ∧
    (∀ (f : Val → Val) (w : Val),
      convSem f (ConvImpl.direct input.ident t v.ident) w = Val.variant v.ident w) := by
  obtain ⟨iname, idata⟩ := input
  simp only at hdata ⊢
  subst hdata
  have hsome : (v.attrs.find? (fun attr => attr == "without_anyhow")).isSome := by
    rw [List.find?_isSome]
    exact ⟨"without_anyhow", hattr, by simp⟩
  obtain ⟨x, hx⟩ := Option.isSome_iff_exists.mp hsome
  have himpl : generate_impl iname v A = some (ConvImpl.direct iname t v.ident) := by
    rw [generate_impl_unnamed iname A v [t] hshape, hx]
    rfl
  refine ⟨?_, fun f w => rfl⟩
  rw [generate_from_impls_enum iname vs A hA]
  simp only [emittedImpls]
  refine List.mem_append_left _ ?_
  rw [List.mem_filterMap]
  exact ⟨v, hv, by rw [if_neg hne, himpl]⟩

/-- C6 witness: on the test-suite enum, the marked variant
`ErrorWithoutAnyhow(ErrorWithoutAnyhow)` gets the direct-wrap
conversion, which wraps every inner value unconditionally. -/
theorem direct_wrap_conversion_witness :
    ConvImpl.direct "Error" "ErrorWithoutAnyhow" "ErrorWithoutAnyhow" ∈
      emittedImpls (generate_from_impls testInput) ∧
    (∀ (f : Val → Val) (w : Val),
      convSem f (ConvImpl.direct "Error" "ErrorWithoutAnyhow" "ErrorWithoutAnyhow") w =
        Val.variant "ErrorWithoutAnyhow" w) :=
  direct_wrap_conversion testInput
    [⟨"AnyhowError", Fields.unnamed ["anyhow :: Error"], []⟩,
     ⟨"ApplicationError", Fields.unnamed ["ApplicationError"], []⟩,
     ⟨"ErrorWithoutAnyhow", Fields.unnamed ["ErrorWithoutAnyhow"], ["without_anyhow"]⟩]
    "AnyhowError" ⟨"ErrorWithoutAnyhow", Fields.unnamed ["ErrorWithoutAnyhow"], ["without_anyhow"]⟩
    "ErrorWithoutAnyhow" rfl rfl (by decide) (by decide) rfl (by decide)

/-- C2: for every validated declaration, exactly one universal conversion
from `anyhow::Error` is emitted; it targets the selected catch-all
variant and wraps the value after the `.into()` conversion, regardless of
the other variants. -/
theorem universal_entry_point (input : DeriveInput) (vs : List Variant) (A : String)
    (hdata : input.data = Data.enumData vs)
    (hA : get_variant_with_type vs "anyhow :: Error" = some A) :
    ∃ impls, generate_from_impls input = GenResult.ok impls ∧
      impls.countP isUniversal = 1 ∧
      ConvImpl.universal input.ident A ∈ impls ∧
      ∀ c ∈ impls, isUniversal c = true →
        c = ConvImpl.universal input.ident A ∧
        ∀ (f : Val → Val) (w : Val), convSem f c w = Val.variant A (f w) := by
  obtain ⟨iname, idata⟩ := input
  simp only at hdata ⊢
  subst hdata
  rw [generate_from_impls_enum iname vs A hA]
  refine ⟨_, rfl, ?_, ?_, ?_⟩
  · rw [List.countP_append]
    have h0 : (vs.filterMap (fun variant =>
        if variant.ident = A then none else generate_impl iname variant A)).countP
          isUniversal = 0 := by
      rw [List.countP_eq_zero]
      intro c hc
      obtain ⟨w, _, hw⟩ := List.mem_filterMap.mp hc
      obtain ⟨-, hgen⟩ := loop_body_some hw
      simp [isUniversal_of_generate hgen]
    rw [h0]
    rfl
  · exact List.mem_append_right _ (by simp)
  · intro c hc huniv
    rcases List.mem_append.mp hc with hmem | hmem
    · obtain ⟨w, _, hw⟩ := List.mem_filterMap.mp hmem
      obtain ⟨-, hgen⟩ := loop_body_some hw
      rw [isUniversal_of_generate hgen] at huniv
      exact absurd huniv (by simp)
    · have hc2 : c = ConvImpl.universal iname A := by simpa using hmem
      subst hc2
      exact ⟨rfl, fun f w => rfl⟩

/-- C2 witness: the conclusions of `universal_entry_point` at the
test-suite enum, catch-all `AnyhowError`. -/
theorem universal_entry_point_witness :
    ∃ impls, generate_from_impls testInput = GenResult.ok impls ∧
      impls.countP isUniversal = 1 ∧
      ConvImpl.universal "Error" "AnyhowError" ∈ impls ∧
      ∀ c ∈ impls, isUniversal c = true →
        c = ConvImpl.universal "Error" "AnyhowError" ∧
        ∀ (f : Val → Val) (w : Val), convSem f c w = Val.variant "AnyhowError" (f w) :=
  universal_entry_point testInput
    [⟨"AnyhowError", Fields.unnamed ["anyhow :: Error"], []⟩,
     ⟨"ApplicationError", Fields.unnamed ["ApplicationError"], []⟩,
     ⟨"ErrorWithoutAnyhow", Fields.unnamed ["ErrorWithoutAnyhow"], ["without_anyhow"]⟩]
    "AnyhowError" rfl rfl

lemma loopMap_cons_none (en A : String) {w : Variant} (rest : List Variant)
    (h : (if w.ident = A then none else generate_impl en w A) = none) :
    (w :: rest).filterMap (fun u => if u.ident = A then none else generate_impl en u A) =
      rest.filterMap (fun u => if u.ident = A then none else generate_impl en u A) :=
  List.filterMap_cons_none h

lemma loopMap_cons_some (en A : String) {w : Variant} {c : ConvImpl} (rest : List Variant)
    (h : (if w.ident = A then none else generate_impl en w A) = some c) :
    (w :: rest).filterMap (fun u => if u.ident = A then none else generate_impl en u A) =
      c :: rest.filterMap (fun u => if u.ident = A then none else generate_impl en u A) :=
  List.filterMap_cons_some h

lemma filter_filterMap_single (en A : String) (v : Variant) (c : ConvImpl)
    (vs : List Variant)
    (hnodup : (vs.map Variant.ident).Nodup)
    (hv : v ∈ vs) (hne : v.ident ≠ A)
    (hc : generate_impl en v A = some c) :
    (vs.filterMap (fun w => if w.ident = A then none else generate_impl en w A)).filter
      (isImplFor v.ident) = [c] := by
  induction vs with
  | nil => cases hv
  | cons w rest ih =>
    rw [List.map_cons, List.nodup_cons] at hnodup
    obtain ⟨hwnotin, hnodup2⟩ := hnodup
    rcases List.mem_cons.mp hv with hvw | hvrest
    · subst hvw
      have hfa : (if v.ident = A then none else generate_impl en v A) = some c := by
        rw [if_neg hne]
        exact hc
      rw [loopMap_cons_some en A rest hfa]
      have hpos : isImplFor v.ident c = true := by
        rw [isImplFor_of_generate v.ident hc]
        simp
      rw [List.filter_cons_of_pos hpos]
      have hrest : (rest.filterMap (fun u =>
          if u.ident = A then none else generate_impl en u A)).filter
            (isImplFor v.ident) = [] := by
        rw [List.filter_eq_nil_iff]
        intro b hb
        obtain ⟨u, humem, hu⟩ := List.mem_filterMap.mp hb
        obtain ⟨-, hugen⟩ := loop_body_some hu
        rw [isImplFor_of_generate v.ident hugen]
        simp only [beq_iff_eq]
        intro heq
        exact hwnotin (List.mem_map.mpr ⟨u, humem, heq⟩)
      rw [hrest]
    · have hwv : w.ident ≠ v.ident := by
        intro heq
        exact hwnotin (heq ▸ List.mem_map.mpr ⟨v, hvrest, rfl⟩)
      cases hga : (if w.ident = A then none else generate_impl en w A) with
      | none =>
        rw [loopMap_cons_none en A rest hga]
        exact ih hnodup2 hvrest
      | some b =>
        rw [loopMap_cons_some en A rest hga]
        obtain ⟨-, hbgen⟩ := loop_body_some hga
        have hneg : ¬ isImplFor v.ident b = true := by
          rw [isImplFor_of_generate v.ident hbgen]
          simp [hwv]
        rw [List.filter_cons_of_neg hneg]
        exact ih hnodup2 hvrest

/-- C7: for every variant with exactly one unnamed field that is not the
catch-all, exactly one conversion implementation for it is emitted, and
it converts from that variant's inner type (the rendered single field
type). -/
theorem one_impl_per_eligible_variant (input : DeriveInput) (vs : List Variant) (A : String)
    (v : Variant) (t : String)
    (hdata : input.data = Data.enumData vs)
    (hnodup : (vs.map Variant.ident).Nodup)
    (hA : get_variant_with_type vs "anyhow :: Error" = some A)
    (hv : v ∈ vs) (hne : v.ident ≠ A)
    (hshape : v.fields = Fields.unnamed [t]) :
    ∃ c, generate_impl input.ident v A = some c ∧
      (emittedImpls (generate_from_impls input)).filter (isImplFor v.ident) = [c] ∧
      implSrc c = t := by
  obtain ⟨iname, idata⟩ := input
  simp only at hdata ⊢
  subst hdata
  have himpl : ∃ c, generate_impl iname v A = some c := by
    rw [generate_impl_unnamed iname A v [t] hshape]
    cases v.attrs.find? (fun attr => attr == "without_anyhow") with
    | none => exact ⟨_, rfl⟩
    | some _ => exact ⟨_, rfl⟩
  obtain ⟨c, hc⟩ := himpl
  refine ⟨c, hc, ?_, (implSrc_of_generate hshape hc).trans rfl⟩
  rw [generate_from_impls_enum iname vs A hA]
  simp only [emittedImpls, List.filter_append]
  have huniv : List.filter (isImplFor v.ident) [ConvImpl.universal iname A] = [] := rfl
  rw [huniv, List.append_nil]
  exact filter_filterMap_single iname A v c vs hnodup hv hne hc

/-- C7 witness: on the test-suite enum, exactly one conversion is emitted
for the variant `ApplicationError`, converting from its inner type. -/
theorem one_impl_per_eligible_variant_witness :
    ∃ c, generate_impl "Error" ⟨"ApplicationError", Fields.unnamed ["ApplicationError"], []⟩
        "AnyhowError" = some c ∧
      (emittedImpls (generate_from_impls testInput)).filter (isImplFor "ApplicationError") =
        [c] ∧
      implSrc c = "ApplicationError" :=
  one_impl_per_eligible_variant testInput
    [⟨"AnyhowError", Fields.unnamed ["anyhow :: Error"], []⟩,
     ⟨"ApplicationError", Fields.unnamed ["ApplicationError"], []⟩,
     ⟨"ErrorWithoutAnyhow", Fields.unnamed ["ErrorWithoutAnyhow"], ["without_anyhow"]⟩]
    "AnyhowError" ⟨"ApplicationError", Fields.unnamed ["ApplicationError"], []⟩
    "ApplicationError" rfl (by decide) rfl (by decide) (by decide) rfl

lemma variant_matches_type_congr (wt : String) (v w : Variant)
    (h1 : v.ident = w.ident) (h2 : v.fields = w.fields) :
    variant_matches_type wt v = variant_matches_type wt w := by
  obtain ⟨i, f, a⟩ := v
  obtain ⟨i₂, f₂, a₂⟩ := w
  simp only at h1 h2
  subst h1
  subst h2
  cases f <;> rfl

lemma generate_impl_congr (en A : String) (v w : Variant)
    (h1 : v.ident = w.ident) (h2 : v.fields = w.fields) (h3 : v.attrs = w.attrs) :
    generate_impl en v A = generate_impl en w A := by
  obtain ⟨i, f, a⟩ := v
  obtain ⟨i₂, f₂, a₂⟩ := w
  simp only at h1 h2 h3
  subst h1
  subst h2
  subst h3
  rfl

lemma get_variant_with_type_agree (wt A : String) {vs vs' : List Variant}
    (hagree : List.Forall₂ (AgreeExceptAttrs A) vs vs') :
    get_variant_with_type vs wt = get_variant_with_type vs' wt := by
  induction hagree with
  | nil => rfl
  | @cons v w rest rest' hag htail ih =>
    obtain ⟨h1, h2, -⟩ := hag
    simp only [get_variant_with_type, List.findSome?_cons] at ih ⊢
    rw [variant_matches_type_congr wt v w h1 h2]
    cases variant_matches_type wt w <;> simp [ih]

lemma filterMap_agree (en A : String) {vs vs' : List Variant}
    (hagree : List.Forall₂ (AgreeExceptAttrs A) vs vs') :
    vs.filterMap (fun w => if w.ident = A then none else generate_impl en w A) =
      vs'.filterMap (fun w => if w.ident = A then none else generate_impl en w A) := by
  induction hagree with
  | nil => rfl
  | @cons v w rest rest' hag htail ih =>
    obtain ⟨h1, h2, h3⟩ := hag
    by_cases hvA : v.ident = A
    · have e1 : (if v.ident = A then none else generate_impl en v A) = none := if_pos hvA
      have e2 : (if w.ident = A then none else generate_impl en w A) = none :=
        if_pos (h1 ▸ hvA)
      rw [loopMap_cons_none en A rest e1, loopMap_cons_none en A rest' e2]
      exact ih
    · have hgen : generate_impl en v A = generate_impl en w A :=
        generate_impl_congr en A v w h1 h2 (h3 hvA)
      have e1 : (if v.ident = A then none else generate_impl en v A) = generate_impl en v A :=
        if_neg hvA
      have e2 : (if w.ident = A then none else generate_impl en w A) = generate_impl en v A :=
        (if_neg (h1 ▸ hvA)).trans hgen.symm
      cases hg : generate_impl en v A with
      | none =>
        rw [loopMap_cons_none en A rest (e1.trans hg), loopMap_cons_none en A rest' (e2.trans hg)]
        exact ih
      | some b =>
        rw [loopMap_cons_some en A rest (e1.trans hg), loopMap_cons_some en A rest' (e2.trans hg),
          ih]

/-- C10: attributes attached to the selected catch-all variant have no
effect: two declarations that agree on the name, on every variant's
identifier and field shape, and on the attributes of every variant other
than the catch-all, produce identical generation results. -/
theorem catch_all_attrs_irrelevant (name : String) (vs vs' : List Variant) (A : String)
    (hA : get_variant_with_type vs "anyhow :: Error" = some A)
    (hagree : List.Forall₂ (AgreeExceptAttrs A) vs vs') :
    generate_from_impls ⟨name, Data.enumData vs⟩ =
      generate_from_impls ⟨name, Data.enumData vs'⟩ := by
  have hA2 : get_variant_with_type vs' "anyhow :: Error" = some A :=
    (get_variant_with_type_agree "anyhow :: Error" A hagree).symm.trans hA
  rw [generate_from_impls_enum name vs A hA, generate_from_impls_enum name vs' A hA2,
    filterMap_agree name A hagree]

/-- C10 witness: adding `without_anyhow` to the catch-all variant of the
test-suite enum leaves the generation result unchanged. -/
theorem catch_all_attrs_irrelevant_witness :
    generate_from_impls ⟨"Error", Data.enumData [
      ⟨"AnyhowError", Fields.unnamed ["anyhow :: Error"], []⟩,
      ⟨"ApplicationError", Fields.unnamed ["ApplicationError"], []⟩]⟩ =
    generate_from_impls ⟨"Error", Data.enumData [
      ⟨"AnyhowError", Fields.unnamed ["anyhow :: Error"], ["without_anyhow"]⟩,
      ⟨"ApplicationError", Fields.unnamed ["ApplicationError"], []⟩]⟩ :=
  catch_all_attrs_irrelevant "Error" _ _ "AnyhowError" rfl
    (List.Forall₂.cons ⟨rfl, rfl, fun h => absurd rfl h⟩
      (List.Forall₂.cons ⟨rfl, rfl, fun _ => rfl⟩ List.Forall₂.nil))

end ErrorEnum
